import Mathlib

/-!
Shallow embedding of the paper-trading core of the polybot repository
(src/paper_trading/{portfolio.rs, trade_log.rs, engine.rs}).

Modelling conventions:
* Rust `f64` is modelled by `ℚ` (exact arithmetic); every claim here is an
  algebraic property of the arithmetic the code performs.
* `HashMap<String, Position>` is modelled by an association list
  `List (String × Position)` together with map-semantics operations
  (lookup of the key, update of the key, erasure of the key).
* `Uuid::new_v4()` and `Utc::now()` are external effects: the fresh id is a
  parameter of the corresponding operation, and the timestamp field (never
  read by any operation) is omitted.
* `save()` only persists state to disk and has no effect on in-memory state;
  it is omitted.
* Rust methods on `&mut self` returning `Result` are modelled as functions
  returning `Except`; an error result leaves the caller's state untouched,
  which the engine-level functions make explicit by returning the unchanged
  state alongside the error.
-/

set_option autoImplicit false

namespace Polybot

instance {ε α : Type} [DecidableEq ε] [DecidableEq α] : DecidableEq (Except ε α) := fun x y =>
  match x, y with
  | Except.ok a, Except.ok b =>
      if h : a = b then isTrue (by rw [h]) else isFalse (by intro hc; cases hc; exact h rfl)
  | Except.ok _, Except.error _ => isFalse (by intro hc; cases hc)
  | Except.error _, Except.ok _ => isFalse (by intro hc; cases hc)
  | Except.error a, Except.error b =>
      if h : a = b then isTrue (by rw [h]) else isFalse (by intro hc; cases hc; exact h rfl)

/-- Association-list lookup of the first binding of key `m`
(model of `HashMap::get`). -/
def lk {α : Type} (m : String) : List (String × α) → Option α
  | [] => none
  | (k, v) :: rest => if k = m then some v else lk m rest

/-- Replace the value bound to key `m` (model of mutation through
`HashMap::get_mut`). -/
def updKey {α : Type} (m : String) (v : α) : List (String × α) → List (String × α)
  | [] => []
  | (k, w) :: rest => if k = m then (k, v) :: updKey m v rest else (k, w) :: updKey m v rest

/-- Remove the binding of key `m` (model of `HashMap::remove`). -/
def delKey {α : Type} (m : String) : List (String × α) → List (String × α)
  | [] => []
  | (k, w) :: rest => if k = m then delKey m rest else (k, w) :: delKey m rest

/-- A position in a market (struct `Position`, portfolio.rs). -/
structure Position where
  market : String
  coin : String
  platform : String
  size : ℚ
  avg_price : ℚ
  current_price : ℚ
  unrealized_pnl : ℚ
  deriving DecidableEq, Repr

namespace Position

/-- `Position::update_pnl` (portfolio.rs): store the current price and
recompute the unrealized P&L from it. -/
def update_pnl (p : Position) (current_price : ℚ) : Position :=
  { p with
    current_price := current_price
    unrealized_pnl := p.size * (current_price - p.avg_price) }

/-- `Position::current_value`. -/
def current_value (p : Position) : ℚ := p.size * p.current_price

/-- `Position::initial_value`. -/
def initial_value (p : Position) : ℚ := p.size * p.avg_price

end Position

/-- Virtual portfolio for paper trading (struct `Portfolio`, portfolio.rs);
the `file_path` persistence field is omitted. -/
structure Portfolio where
  initial_balance : ℚ
  cash_balance : ℚ
  positions : List (String × Position)
  realized_pnl : ℚ
  deriving DecidableEq, Repr

namespace Portfolio

/-- `Portfolio::new`. -/
def new (initial_balance : ℚ) : Portfolio :=
  { initial_balance := initial_balance
    cash_balance := initial_balance
    positions := []
    realized_pnl := 0 }

/-- `Portfolio::open_position` (portfolio.rs): reject when
`size_usd > cash_balance`, otherwise deduct the cash and either add the
bought shares to the existing position for the market (with a new average
price) or create a fresh position. -/
def open_position (pf : Portfolio) (market coin platform : String)
    (size_usd price : ℚ) : Except String Portfolio :=
  if size_usd > pf.cash_balance then
    Except.error ("Insufficient balance: " ++ toString pf.cash_balance ++
      " available, " ++ toString size_usd ++ " needed")
  else
    let cash := pf.cash_balance - size_usd
    let shares := size_usd / price
    match lk market pf.positions with
    | some pos =>
        let total_shares := pos.size + shares
        let total_value := pos.size * pos.avg_price + size_usd
        let pos2 := { pos with avg_price := total_value / total_shares, size := total_shares }
        Except.ok { pf with cash_balance := cash, positions := updKey market pos2 pf.positions }
    | none =>
        Except.ok { pf with
          cash_balance := cash
          positions := pf.positions ++ [(market,
            { market := market, coin := coin, platform := platform,
              size := shares, avg_price := price, current_price := price,
              unrealized_pnl := 0 })] }

/-- The `&mut self` view of `open_position`: on error the portfolio is left
as it was. -/
def open_position_run (pf : Portfolio) (market coin platform : String)
    (size_usd price : ℚ) : Portfolio :=
  match pf.open_position market coin platform size_usd price with
  | Except.ok pf2 => pf2
  | Except.error _ => pf

/-- `Portfolio::close_position` (portfolio.rs): remove the position, credit
`size * exit_price` to cash, add `size * (exit_price - avg_price)` to the
realized P&L and return that P&L. -/
def close_position (pf : Portfolio) (market : String) (exit_price : ℚ) :
    Except String (ℚ × Portfolio) :=
  match lk market pf.positions with
  | none => Except.error ("No position found for " ++ market)
  | some position =>
      let pnl := position.size * (exit_price - position.avg_price)
      let exit_value := position.size * exit_price
      Except.ok (pnl,
        { pf with
          positions := delKey market pf.positions
          cash_balance := pf.cash_balance + exit_value
          realized_pnl := pf.realized_pnl + pnl })

/-- The `&mut self` view of `close_position`: on error the portfolio is
left as it was. -/
def close_position_run (pf : Portfolio) (market : String) (exit_price : ℚ) : Portfolio :=
  match pf.close_position market exit_price with
  | Except.ok r => r.2
  | Except.error _ => pf

/-- `Portfolio::update_prices` (portfolio.rs): every position whose market
has a price in the supplied map is updated through `Position.update_pnl`. -/
def update_prices (pf : Portfolio) (prices : List (String × ℚ)) : Portfolio :=
  { pf with
    positions := pf.positions.map (fun kv =>
      match lk kv.1 prices with
      | some price => (kv.1, kv.2.update_pnl price)
      | none => kv) }

end Portfolio

/-- Trade direction (enum `Side`, trade_log.rs). -/
inductive Side where
  | Buy
  | Sell
  deriving DecidableEq, Repr

/-- Trade status (enum `TradeStatus`, trade_log.rs). -/
inductive TradeStatus where
  | Open
  | Closed
  | Cancelled
  deriving DecidableEq, Repr

/-- A paper trade record (struct `PaperTrade`, trade_log.rs); the
`timestamp` field (wall clock, never read) is omitted. `size` is the USD
amount of the trade, `entry_price` the entry price. -/
structure PaperTrade where
  id : String
  market : String
  coin : String
  timeframe : String
  platform : String
  side : Side
  size : ℚ
  entry_price : ℚ
  exit_price : Option ℚ
  pnl : Option ℚ
  status : TradeStatus
  strategy : String
  confidence : ℚ
  notes : Option String
  deriving DecidableEq, Repr

namespace PaperTrade

/-- `PaperTrade::new` (trade_log.rs); the freshly generated uuid is the
`id` parameter. -/
def new (id market coin timeframe platform : String) (side : Side)
    (size entry_price : ℚ) (strategy : String) (confidence : ℚ) : PaperTrade :=
  { id := id
    market := market
    coin := coin
    timeframe := timeframe
    platform := platform
    side := side
    size := size
    entry_price := entry_price
    exit_price := none
    pnl := none
    status := TradeStatus.Open
    strategy := strategy
    confidence := confidence
    notes := none }

/-- `PaperTrade::close` (trade_log.rs): record the exit price, mark the
trade Closed and compute the P&L from the USD size and the entry price. -/
def close (t : PaperTrade) (exit_price : ℚ) : PaperTrade :=
  { t with
    exit_price := some exit_price
    status := TradeStatus.Closed
    pnl := some (match t.side with
      | Side.Buy => t.size * (exit_price - t.entry_price)
      | Side.Sell => t.size * (t.entry_price - exit_price)) }

end PaperTrade

namespace TradeLog

/-- `TradeLog::get_open` (trade_log.rs): the open trades, in insertion
order. -/
def get_open (l : List PaperTrade) : List PaperTrade :=
  l.filter (fun t => decide (t.status = TradeStatus.Open))

/-- `TradeLog::close_trade` (trade_log.rs): close the first trade whose id
matches and report whether one was found. -/
def close_trade (l : List PaperTrade) (id : String) (exit_price : ℚ) :
    Bool × List PaperTrade :=
  match l with
  | [] => (false, [])
  | t :: rest =>
      if t.id = id then (true, t.close exit_price :: rest)
      else
        let r := close_trade rest id exit_price
        (r.1, t :: r.2)

end TradeLog

/-- The paper trading engine (struct `PaperTradingEngine`, engine.rs): a
portfolio plus a trade log (the log's `file_path` is omitted). -/
structure Engine where
  portfolio : Portfolio
  trade_log : List PaperTrade
  deriving DecidableEq, Repr

namespace Engine

/-- `PaperTradingEngine::buy` (engine.rs): open the position in the
portfolio first; only when that succeeds is a new Open record appended to
the trade log. The state component of the result is the engine after the
call (`&mut self` semantics: unchanged on error). -/
def buy (e : Engine) (market coin timeframe platform : String)
    (size_usd price : ℚ) (strategy : String) (confidence : ℚ)
    (newId : String) : Engine × Except String String :=
  match e.portfolio.open_position market coin platform size_usd price with
  | Except.error msg => (e, Except.error msg)
  | Except.ok pf =>
      let trade := PaperTrade.new newId market coin timeframe platform
        Side.Buy size_usd price strategy confidence
      ({ portfolio := pf, trade_log := e.trade_log ++ [trade] },
        Except.ok trade.id)

/-- `PaperTradingEngine::sell` (engine.rs): close the position in the
portfolio; then look for the first Open trade for the market and, if one is
found, close the record with that id in the log. The realized P&L of the
portfolio call is returned either way. -/
def sell (e : Engine) (market : String) (exit_price : ℚ) :
    Engine × Except String ℚ :=
  match e.portfolio.close_position market exit_price with
  | Except.error msg => (e, Except.error msg)
  | Except.ok (pnl, pf) =>
      let trade_id := ((TradeLog.get_open e.trade_log).find?
        (fun t => decide (t.market = market))).map (fun t => t.id)
      match trade_id with
      | none => ({ portfolio := pf, trade_log := e.trade_log }, Except.ok pnl)
      | some id =>
          ({ portfolio := pf,
             trade_log := (TradeLog.close_trade e.trade_log id exit_price).2 },
            Except.ok pnl)

end Engine

/-- The operations the program performs on a trade log: appending a freshly
created record (`TradeLog::add_trade` of a `PaperTrade::new` result, as done
by `PaperTradingEngine::buy`) and closing a record by id
(`TradeLog::close_trade`). -/
inductive LogOp where
  | addNew (id market coin timeframe platform : String) (side : Side)
      (size entry_price : ℚ) (strategy : String) (confidence : ℚ)
  | close (id : String) (exit_price : ℚ)

/-- Apply one trade-log operation. -/
def apply_op (l : List PaperTrade) : LogOp → List PaperTrade
  | LogOp.addNew id market coin timeframe platform side size entry_price strategy confidence =>
      l ++ [PaperTrade.new id market coin timeframe platform side size entry_price
        strategy confidence]
  | LogOp.close id exit_price => (TradeLog.close_trade l id exit_price).2

/-- Run a sequence of trade-log operations. -/
def run_ops (ops : List LogOp) (l : List PaperTrade) : List PaperTrade :=
  ops.foldl apply_op l

/-- A record that is still Open has its exit price and P&L unset. -/
def trade_wf (t : PaperTrade) : Prop :=
  t.status = TradeStatus.Open → t.exit_price = none ∧ t.pnl = none

/-- A sequence of `open_position` calls on one market, stopping at the
first failure (the fold of `Portfolio::open_position`). -/
def open_seq (pf : Portfolio) (market coin platform : String) :
    List (ℚ × ℚ) → Except String Portfolio
  | [] => Except.ok pf
  | sp :: rest =>
      match pf.open_position market coin platform sp.1 sp.2 with
      | Except.error msg => Except.error msg
      | Except.ok pf2 => open_seq pf2 market coin platform rest

/-- Total number of shares bought by a sequence of (size_usd, price)
purchases: the sum of `size_usd / price`. -/
def sum_shares (l : List (ℚ × ℚ)) : ℚ := (l.map (fun sp => sp.1 / sp.2)).sum

/-- Total USD spent by a sequence of (size_usd, price) purchases. -/
def sum_cost (l : List (ℚ × ℚ)) : ℚ := (l.map (fun sp => sp.1)).sum

/-- Close the first Open record (in insertion order) whose market matches,
leaving every other record unchanged: the effect on the trade log that the
spec ascribes to `PaperTradingEngine::sell`. -/
def close_first_open_match (market : String) (exit_price : ℚ) :
    List PaperTrade → List PaperTrade
  | [] => []
  | t :: rest =>
      if t.status = TradeStatus.Open ∧ t.market = market
      then t.close exit_price :: rest
      else t :: close_first_open_match market exit_price rest

/-- C1 scenario: a fresh engine with balance 1000 and an empty log. -/
def c1_engine0 : Engine := { portfolio := Portfolio.new 1000, trade_log := [] }

/-- C1 scenario: buy $100 of market "M" at price 0.40. -/
def c1_after_buy : Engine :=
  (c1_engine0.buy "M" "coin" "1h" "polymarket" 100 (2/5) "manual" 1 "trade-1").1

/-- C1 scenario: then sell "M" at 0.60. -/
def c1_sell : Engine × Except String ℚ := c1_after_buy.sell "M" (3/5)

/-- C2 counterexample: buy $100 of "M" at 0.40… -/
def c2_p1 : Portfolio := (Portfolio.new 1000).open_position_run "M" "c" "pl" 100 (2/5)

/-- C2 counterexample: …see the price move to 0.50… -/
def c2_p2 : Portfolio := c2_p1.update_prices [("M", 1/2)]

/-- C2 counterexample: …and buy $60 more at 0.60, which changes size and
avg_price without recomputing unrealized_pnl. -/
def c2_p3 : Portfolio := c2_p2.open_position_run "M" "c" "pl" 60 (3/5)

/-- C3 counterexample: one freshly created record with id "a". -/
def c3_t0 : PaperTrade :=
  PaperTrade.new "a" "M" "c" "1h" "polymarket" Side.Buy 100 (2/5) "manual" 1

/-- C3 counterexample: the log after closing id "a" at 0.50. -/
def c3_l1 : List PaperTrade := (TradeLog.close_trade [c3_t0] "a" (1/2)).2

/-- C3 counterexample: the log after closing id "a" again, at 0.70. -/
def c3_l2 : List PaperTrade := (TradeLog.close_trade c3_l1 "a" (7/10)).2

/-- A small position used to instantiate portfolio theorems. -/
def c5_pos : Position :=
  { market := "M", coin := "c", platform := "p",
    size := 10, avg_price := 1, current_price := 1, unrealized_pnl := 0 }

/-- A small portfolio holding `c5_pos` under key "M". -/
def c5_pf : Portfolio :=
  { initial_balance := 100, cash_balance := 100,
    positions := [("M", c5_pos)], realized_pnl := 0 }

/-- The portfolio reached from a fresh balance of 1000 by buying $100 of
"M" at 0.40 and then $50 more at 0.50: 350 shares at avg_price 3/7. -/
def c6_pf2 : Portfolio :=
  { initial_balance := 1000, cash_balance := 850,
    positions := [("M",
      { market := "M", coin := "c", platform := "p",
        size := 350, avg_price := 3/7, current_price := 2/5, unrealized_pnl := 0 })],
    realized_pnl := 0 }

/-! ## Lemmas about the association-list map operations -/

theorem lk_delKey_self {α : Type} (m : String) (l : List (String × α)) :
    lk m (delKey m l) = none := by
  induction l with
  | nil => rfl
  | cons kv rest ih =>
      obtain ⟨k, v⟩ := kv
      by_cases h : k = m
      · simp [delKey, h, ih]
      · simp [delKey, h, lk, ih]

theorem lk_updKey_some {α : Type} (m : String) (v w : α) (l : List (String × α))
    (h : lk m l = some w) : lk m (updKey m v l) = some v := by
  induction l with
  | nil => simp [lk] at h
  | cons kv rest ih =>
      obtain ⟨k, u⟩ := kv
      by_cases hk : k = m
      · simp [updKey, hk, lk]
      · simp [lk, hk] at h
        simp [updKey, hk, lk, ih h]

theorem lk_append_single_self {α : Type} (m : String) (v : α) (l : List (String × α))
    (h : lk m l = none) : lk m (l ++ [(m, v)]) = some v := by
  induction l with
  | nil => simp [lk]
  | cons kv rest ih =>
      obtain ⟨k, u⟩ := kv
      by_cases hk : k = m
      · simp [lk, hk] at h
      · simp [lk, hk] at h ⊢
        exact ih h

/-! ## Lemmas about `Portfolio.open_position` -/

theorem open_position_error_of_gt {pf : Portfolio} {size_usd : ℚ}
    (market coin platform : String) (price : ℚ) (h : size_usd > pf.cash_balance) :
    ∃ msg, pf.open_position market coin platform size_usd price = Except.error msg :=
  ⟨"Insufficient balance: " ++ toString pf.cash_balance ++ " available, " ++
      toString size_usd ++ " needed",
    by simp [Portfolio.open_position, h]⟩

theorem open_position_ok_of_le {pf : Portfolio} {size_usd : ℚ}
    (market coin platform : String) (price : ℚ) (h : ¬ size_usd > pf.cash_balance) :
    ∃ pf2, pf.open_position market coin platform size_usd price = Except.ok pf2 := by
  simp only [Portfolio.open_position, if_neg h]
  cases lk market pf.positions <;> exact ⟨_, rfl⟩

/-- C4: `open_position` fails if and only if `size_usd > cash_balance` at
the moment of the call; on failure the portfolio (the `&mut self` state) is
left unchanged; and a call with `size_usd` exactly equal to `cash_balance`
succeeds. -/
theorem C4_open_position_insufficient_iff (pf : Portfolio)
    (market coin platform : String) (size_usd price : ℚ) :
    ((∃ msg, pf.open_position market coin platform size_usd price = Except.error msg) ↔
      size_usd > pf.cash_balance)
    ∧ (size_usd > pf.cash_balance →
        pf.open_position_run market coin platform size_usd price = pf)
    ∧ (size_usd = pf.cash_balance →
        ∃ pf2, pf.open_position market coin platform size_usd price = Except.ok pf2) := by
  by_cases h : size_usd > pf.cash_balance
  · obtain ⟨msg, hmsg⟩ := open_position_error_of_gt market coin platform price h
    exact ⟨⟨fun _ => h, fun _ => ⟨msg, hmsg⟩⟩,
      fun _ => by simp [Portfolio.open_position_run, hmsg],
      fun heq => absurd (heq ▸ h) (lt_irrefl _)⟩
  · obtain ⟨pf2, hok⟩ := open_position_ok_of_le market coin platform price h
    refine ⟨⟨?_, fun hgt => absurd hgt h⟩, fun hgt => absurd hgt h, fun _ => ⟨pf2, hok⟩⟩
    rintro ⟨msg, hmsg⟩
    rw [hok] at hmsg
    exact Except.noConfusion hmsg

/-- Witness for C4 at a concrete input: a $1 buy on a portfolio with no
cash fails and leaves the portfolio unchanged. -/
theorem C4_witness : (Portfolio.new 0).open_position_run "M" "c" "p" 1 1 = Portfolio.new 0 :=
  (C4_open_position_insufficient_iff (Portfolio.new 0) "M" "c" "p" 1 1).2.1
    (by norm_num [Portfolio.new])

theorem close_position_some {pf : Portfolio} {market : String} {pos : Position}
    (exit_price : ℚ) (hpos : lk market pf.positions = some pos) :
    pf.close_position market exit_price = Except.ok
      (pos.size * (exit_price - pos.avg_price),
        { pf with
          positions := delKey market pf.positions
          cash_balance := pf.cash_balance + pos.size * exit_price
          realized_pnl := pf.realized_pnl + pos.size * (exit_price - pos.avg_price) }) := by
  simp [Portfolio.close_position, hpos]

/-- C5: when a position for the market exists, `close_position` removes the
key, credits `size * exit_price` to cash, adds `size * (exit_price -
avg_price)` to realized_pnl and returns that P&L; when none exists it fails
and leaves the portfolio unchanged. -/
theorem C5_close_position_spec (pf : Portfolio) (market : String) (exit_price : ℚ) :
    (∀ pos, lk market pf.positions = some pos →
      pf.close_position market exit_price = Except.ok
        (pos.size * (exit_price - pos.avg_price),
          { pf with
            positions := delKey market pf.positions
            cash_balance := pf.cash_balance + pos.size * exit_price
            realized_pnl := pf.realized_pnl + pos.size * (exit_price - pos.avg_price) })
      ∧ lk market (delKey market pf.positions) = none)
    ∧ (lk market pf.positions = none →
        (∃ msg, pf.close_position market exit_price = Except.error msg)
        ∧ pf.close_position_run market exit_price = pf) := by
  constructor
  · intro pos hpos
    exact ⟨close_position_some exit_price hpos, lk_delKey_self market pf.positions⟩
  · intro hnone
    exact ⟨⟨"No position found for " ++ market, by simp [Portfolio.close_position, hnone]⟩,
      by simp [Portfolio.close_position_run, Portfolio.close_position, hnone]⟩

/-- Witness for C5 at a concrete input: closing the held position "M" at
price 2 pays out 10 shares at 2 and removes the key; closing the absent
market "X" fails and changes nothing. -/
theorem C5_witness :
    (c5_pf.close_position "M" 2 = Except.ok
      (c5_pos.size * (2 - c5_pos.avg_price),
        { c5_pf with
          positions := delKey "M" c5_pf.positions
          cash_balance := c5_pf.cash_balance + c5_pos.size * 2
          realized_pnl := c5_pf.realized_pnl + c5_pos.size * (2 - c5_pos.avg_price) })
      ∧ lk "M" (delKey "M" c5_pf.positions) = none)
    ∧ ((∃ msg, c5_pf.close_position "X" 2 = Except.error msg)
        ∧ c5_pf.close_position_run "X" 2 = c5_pf) :=
  ⟨(C5_close_position_spec c5_pf "M" 2).1 c5_pos (by simp [c5_pf, lk]),
    (C5_close_position_spec c5_pf "X" 2).2 (by simp [c5_pf, lk])⟩

/-- C1, counterexample: in the buy-then-sell scenario the closed trade
record's pnl field is 20 (the record's P&L is computed from the USD size,
100 · (0.6 − 0.4)), not 50 as the claim states. -/
theorem C1_counterexample :
    c1_sell.1.trade_log.map (fun t => t.pnl) = [some 20]
    ∧ ¬ c1_sell.1.trade_log.map (fun t => t.pnl) = [some 50] := by
  constructor <;>
    norm_num [c1_sell, c1_after_buy, c1_engine0, Engine.buy, Engine.sell, Portfolio.new,
      Portfolio.open_position, Portfolio.close_position, PaperTrade.new, PaperTrade.close,
      TradeLog.get_open, TradeLog.close_trade, lk, delKey, List.find?, List.filter]

/-- C1, amended: buying $100 of "M" at 0.40 from balance 1000 yields 250
shares at avg_price 0.40, cash 900 and one Open record for "M"; selling at
0.60 returns pnl 50 and sets cash to 1050, and the record transitions to
Closed — but its pnl field is 20 (USD size times price move), not the 50
returned by the portfolio. -/
theorem C1_buy_sell_scenario :
    (lk "M" c1_after_buy.portfolio.positions).map (fun p => (p.size, p.avg_price)) =
      some (250, 2/5)
    ∧ c1_after_buy.portfolio.cash_balance = 900
    ∧ c1_after_buy.trade_log.map (fun t => (t.market, t.status)) =
      [("M", TradeStatus.Open)]
    ∧ c1_sell.2 = Except.ok 50
    ∧ c1_sell.1.portfolio.cash_balance = 1050
    ∧ c1_sell.1.trade_log.map (fun t => (t.status, t.pnl)) =
      [(TradeStatus.Closed, some 20)] := by
  refine ⟨?_, ?_, ?_, ?_, ?_, ?_⟩ <;>
    norm_num [c1_sell, c1_after_buy, c1_engine0, Engine.buy, Engine.sell, Portfolio.new,
      Portfolio.open_position, Portfolio.close_position, PaperTrade.new, PaperTrade.close,
      TradeLog.get_open, TradeLog.close_trade, lk, delKey, List.find?, List.filter]

/-- C2, counterexample: buy $100 of "M" at 0.40, move the price to 0.50
(unrealized_pnl becomes 25), then buy $60 more at 0.60: size and avg_price
change but unrealized_pnl stays 25 while size·(current_price − avg_price)
is 15. -/
theorem C2_counterexample :
    (lk "M" c2_p3.positions).map (fun p => p.unrealized_pnl) = some 25
    ∧ (lk "M" c2_p3.positions).map
        (fun p => p.size * (p.current_price - p.avg_price)) = some 15
    ∧ (25 : ℚ) ≠ 15 := by
  refine ⟨?_, ?_, by norm_num⟩ <;>
    norm_num [c2_p3, c2_p2, c2_p1, Portfolio.open_position_run, Portfolio.open_position,
      Portfolio.update_prices, Portfolio.new, Position.update_pnl, lk, updKey]

/-- C2, amended: `unrealized_pnl = size * (current_price - avg_price)`
holds for a position right after `update_pnl` stores a new price, right
after `open_position` creates a fresh position, and after `update_prices`
for every position whose market got a price; but `open_position` adding to
an existing position updates size and avg_price without recomputing
unrealized_pnl, so the equation can fail then (see the counterexample). -/
theorem C2_unrealized_pnl_recomputed :
    (∀ (p : Position) (cp : ℚ),
      (p.update_pnl cp).unrealized_pnl =
        (p.update_pnl cp).size * ((p.update_pnl cp).current_price - (p.update_pnl cp).avg_price))
    ∧ (∀ (pf : Portfolio) (market coin platform : String) (size_usd price : ℚ)
        (pf2 : Portfolio), lk market pf.positions = none →
        pf.open_position market coin platform size_usd price = Except.ok pf2 →
        ∃ pos, lk market pf2.positions = some pos
          ∧ pos.unrealized_pnl = pos.size * (pos.current_price - pos.avg_price))
    ∧ (∀ (pf : Portfolio) (prices : List (String × ℚ)) (kv : String × Position),
        kv ∈ (pf.update_prices prices).positions →
        (∃ pr, lk kv.1 prices = some pr) →
        kv.2.unrealized_pnl = kv.2.size * (kv.2.current_price - kv.2.avg_price)) := by
  refine ⟨fun p cp => by simp [Position.update_pnl], ?_, ?_⟩
  · intro pf market coin platform size_usd price pf2 hfresh hok
    by_cases h : size_usd > pf.cash_balance
    · obtain ⟨msg, hmsg⟩ := open_position_error_of_gt market coin platform price h
      rw [hmsg] at hok
      exact Except.noConfusion hok
    · simp only [Portfolio.open_position, if_neg h, hfresh] at hok
      obtain rfl := (Except.ok.injEq _ _).mp hok
      refine ⟨_, lk_append_single_self market _ pf.positions hfresh, by simp⟩
  · intro pf prices kv hmem hpr
    simp only [Portfolio.update_prices] at hmem
    obtain ⟨kv0, hkv0, hkv⟩ := List.mem_map.mp hmem
    cases hlk : lk kv0.1 prices with
    | some pr =>
        rw [hlk] at hkv
        rw [← hkv]
        simp [Position.update_pnl]
    | none =>
        rw [hlk] at hkv
        obtain ⟨pr, hpr⟩ := hpr
        rw [← hkv] at hpr
        rw [hlk] at hpr
        exact Option.noConfusion hpr

/-- Witness for C2 at a concrete input: after update_prices with price 2
for "M", the held position satisfies the equation. -/
theorem C2_witness :
    (c5_pos.update_pnl 2).unrealized_pnl =
      (c5_pos.update_pnl 2).size *
        ((c5_pos.update_pnl 2).current_price - (c5_pos.update_pnl 2).avg_price) :=
  C2_unrealized_pnl_recomputed.2.2 c5_pf [("M", 2)] ("M", c5_pos.update_pnl 2)
    (by simp [Portfolio.update_prices, c5_pf, lk]) ⟨2, by simp [lk]⟩

/-! ## Lemmas for the trade-log invariant -/

theorem trade_wf_close (t : PaperTrade) (ep : ℚ) : trade_wf (t.close ep) := by
  intro h
  simp [PaperTrade.close] at h

theorem close_trade_wf (l : List PaperTrade) (id : String) (ep : ℚ)
    (h : ∀ t ∈ l, trade_wf t) :
    ∀ t ∈ (TradeLog.close_trade l id ep).2, trade_wf t := by
  induction l with
  | nil => simp [TradeLog.close_trade]
  | cons u rest ih =>
      by_cases hu : u.id = id
      · simp only [TradeLog.close_trade, if_pos hu]
        intro t ht
        rcases List.mem_cons.mp ht with rfl | ht
        · exact trade_wf_close u ep
        · exact h t (List.mem_cons_of_mem u ht)
      · simp only [TradeLog.close_trade, if_neg hu]
        intro t ht
        rcases List.mem_cons.mp ht with rfl | ht
        · exact h t (List.mem_cons_self _ _)
        · exact ih (fun s hs => h s (List.mem_cons_of_mem u hs)) t ht

theorem apply_op_wf (l : List PaperTrade) (op : LogOp)
    (h : ∀ t ∈ l, trade_wf t) : ∀ t ∈ apply_op l op, trade_wf t := by
  cases op with
  | addNew id market coin timeframe platform side size entry_price strategy confidence =>
      intro t ht
      rcases List.mem_append.mp ht with ht | ht
      · exact h t ht
      · rcases List.mem_singleton.mp ht with rfl
        intro _
        exact ⟨rfl, rfl⟩
  | close id ep => exact close_trade_wf l id ep h

theorem run_ops_wf (ops : List LogOp) :
    ∀ (l : List PaperTrade), (∀ t ∈ l, trade_wf t) → ∀ t ∈ run_ops ops l, trade_wf t := by
  induction ops with
  | nil => intro l h; simpa [run_ops] using h
  | cons op rest ih =>
      intro l h
      have h2 := apply_op_wf l op h
      simpa [run_ops, List.foldl_cons] using ih (apply_op l op) h2

/-- C3, counterexample: one record with id "a" is closed at 0.50 (status
Closed, exit_price 0.5, pnl 10); a second close_trade with the same id
re-sets exit_price and pnl on the already-Closed record to 0.7 and 30. -/
theorem C3_counterexample :
    c3_l1.map (fun t => (t.status, t.exit_price, t.pnl)) =
      [(TradeStatus.Closed, some (1/2), some 10)]
    ∧ c3_l2.map (fun t => (t.status, t.exit_price, t.pnl)) =
      [(TradeStatus.Closed, some (7/10), some 30)]
    ∧ ((7:ℚ)/10 ≠ 1/2 ∧ (30:ℚ) ≠ 10) := by
  refine ⟨?_, ?_, by norm_num⟩ <;>
    norm_num [c3_l1, c3_l2, c3_t0, TradeLog.close_trade, PaperTrade.new, PaperTrade.close]

/-- C3, amended: for any sequence of trade-log operations starting from an
empty log, a record whose status is still Open has exit_price = none and
pnl = none, and `close` sets exit_price, status and pnl together; but the
fields are not set exactly once: `close_trade` does not check the status,
so a repeated call with the same identifier re-sets exit_price and pnl of
the already-Closed record (see the counterexample). -/
theorem C3_open_means_unset :
    (∀ ops : List LogOp, ∀ t ∈ run_ops ops [], trade_wf t)
    ∧ (∀ (t : PaperTrade) (ep : ℚ),
        (t.close ep).status = TradeStatus.Closed
        ∧ (t.close ep).exit_price = some ep
        ∧ (t.close ep).pnl = some (match t.side with
            | Side.Buy => t.size * (ep - t.entry_price)
            | Side.Sell => t.size * (t.entry_price - ep))) :=
  ⟨fun ops => run_ops_wf ops [] (by simp), fun t ep => ⟨rfl, rfl, rfl⟩⟩

/-- Witness for C3 at a concrete input: the freshly added record with id
"a" is Open, so its exit_price and pnl are unset. -/
theorem C3_witness : c3_t0.exit_price = none ∧ c3_t0.pnl = none :=
  C3_open_means_unset.1
    [LogOp.addNew "a" "M" "c" "1h" "polymarket" Side.Buy 100 (2/5) "manual" 1]
    c3_t0 (by simp [run_ops, apply_op, c3_t0]) rfl

theorem find_open_none {l : List PaperTrade} {market : String}
    (h : ∀ t ∈ l, t.status = TradeStatus.Open → t.market ≠ market) :
    (TradeLog.get_open l).find? (fun t => decide (t.market = market)) = none := by
  rw [List.find?_eq_none]
  intro t ht
  obtain ⟨htl, hts⟩ := List.mem_filter.mp ht
  simp only [decide_eq_true_eq] at hts ⊢
  exact h t htl hts

/-- C7: if the portfolio holds a position for the market but the trade log
has no Open record for it, `sell` still closes the position (cash credit
and realized P&L update), leaves the trade log unchanged and returns the
portfolio's realized P&L as a success. -/
theorem C7_sell_without_open_record (e : Engine) (market : String) (exit_price : ℚ)
    (pos : Position) (hpos : lk market e.portfolio.positions = some pos)
    (hno : ∀ t ∈ e.trade_log, t.status = TradeStatus.Open → t.market ≠ market) :
    e.sell market exit_price =
      ({ portfolio := { e.portfolio with
            positions := delKey market e.portfolio.positions
            cash_balance := e.portfolio.cash_balance + pos.size * exit_price
            realized_pnl := e.portfolio.realized_pnl + pos.size * (exit_price - pos.avg_price) },
         trade_log := e.trade_log },
       Except.ok (pos.size * (exit_price - pos.avg_price))) := by
  simp [Engine.sell, close_position_some exit_price hpos, find_open_none hno]

/-- Witness for C7 at a concrete input: selling "M" on an engine whose log
is empty closes the portfolio position and succeeds. -/
theorem C7_witness :
    ({ portfolio := c5_pf, trade_log := [] } : Engine).sell "M" 2 =
      ({ portfolio := { c5_pf with
            positions := delKey "M" c5_pf.positions
            cash_balance := c5_pf.cash_balance + c5_pos.size * 2
            realized_pnl := c5_pf.realized_pnl + c5_pos.size * (2 - c5_pos.avg_price) },
         trade_log := [] },
       Except.ok (c5_pos.size * (2 - c5_pos.avg_price))) :=
  C7_sell_without_open_record _ "M" 2 c5_pos (by simp [c5_pf, lk]) (by simp)

/-- C8: `buy` propagates a failure of `Portfolio.open_position` with the
engine state — including the trade log — unchanged; a record is appended
only when the portfolio call succeeds. -/
theorem C8_buy_propagates_failure (e : Engine) (market coin timeframe platform : String)
    (size_usd price : ℚ) (strategy : String) (confidence : ℚ) (newId : String) :
    (∀ msg, e.portfolio.open_position market coin platform size_usd price = Except.error msg →
      e.buy market coin timeframe platform size_usd price strategy confidence newId
        = (e, Except.error msg))
    ∧ (∀ pf, e.portfolio.open_position market coin platform size_usd price = Except.ok pf →
      e.buy market coin timeframe platform size_usd price strategy confidence newId
        = ({ portfolio := pf,
             trade_log := e.trade_log ++ [PaperTrade.new newId market coin timeframe platform
               Side.Buy size_usd price strategy confidence] },
           Except.ok newId)) := by
  constructor
  · intro msg hmsg
    simp [Engine.buy, hmsg]
  · intro pf hok
    simp [Engine.buy, hok, PaperTrade.new]

/-- Witness for C8 at a concrete input: a $1 buy on an engine with no cash
fails with the portfolio's error and leaves the engine unchanged. -/
theorem C8_witness :
    ({ portfolio := Portfolio.new 0, trade_log := [c3_t0] } : Engine).buy
        "M" "c" "1h" "polymarket" 1 1 "manual" 1 "id-1"
      = ({ portfolio := Portfolio.new 0, trade_log := [c3_t0] },
         Except.error ("Insufficient balance: " ++ toString (0:ℚ) ++ " available, " ++
           toString (1:ℚ) ++ " needed")) :=
  (C8_buy_propagates_failure _ "M" "c" "1h" "polymarket" 1 1 "manual" 1 "id-1").1
    _ (by norm_num [Portfolio.open_position, Portfolio.new])

/-- C9: `close_trade` with an identifier matching no record returns false
and leaves every record unchanged. -/
theorem C9_close_trade_no_match (l : List PaperTrade) (id : String) (ep : ℚ)
    (h : ∀ t ∈ l, t.id ≠ id) :
    TradeLog.close_trade l id ep = (false, l) := by
  induction l with
  | nil => rfl
  | cons u rest ih =>
      have hu : u.id ≠ id := h u (List.mem_cons_self _ _)
      simp only [TradeLog.close_trade, if_neg hu]
      rw [ih (fun t ht => h t (List.mem_cons_of_mem u ht))]

/-- Witness for C9 at a concrete input: closing id "z" on a log whose only
record has id "a" returns false and keeps the log. -/
theorem C9_witness : TradeLog.close_trade [c3_t0] "z" 1 = (false, [c3_t0]) :=
  C9_close_trade_no_match [c3_t0] "z" 1 (by simp [c3_t0, PaperTrade.new])

theorem close_trade_eq_close_first {l : List PaperTrade} {market : String} {t : PaperTrade}
    (ep : ℚ) (hids : (l.map (fun u => u.id)).Nodup)
    (hfind : (TradeLog.get_open l).find? (fun u => decide (u.market = market)) = some t) :
    (TradeLog.close_trade l t.id ep).2 = close_first_open_match market ep l := by
  induction l with
  | nil => simp [TradeLog.get_open] at hfind
  | cons u rest ih =>
      obtain ⟨hu_notin, hids_rest⟩ :
          (∀ x ∈ rest, ¬ x.id = u.id) ∧ (rest.map (fun v => v.id)).Nodup := by
        simpa using hids
      by_cases hopen : u.status = TradeStatus.Open
      · by_cases hmk : u.market = market
        · have ht : u = t := by
            simpa [TradeLog.get_open, List.filter_cons, hopen, hmk] using hfind
          subst ht
          simp [TradeLog.close_trade, close_first_open_match, hopen, hmk]
        · have hfind2 :
              (TradeLog.get_open rest).find? (fun v => decide (v.market = market)) = some t := by
            simpa [TradeLog.get_open, List.filter_cons, hopen, hmk] using hfind
          have htmem : t ∈ rest :=
            (List.mem_filter.mp (List.mem_of_find?_eq_some hfind2)).1
          have htid : ¬ u.id = t.id := fun he => hu_notin t htmem he.symm
          simp only [TradeLog.close_trade, if_neg htid, close_first_open_match]
          rw [if_neg (fun hc => hmk hc.2), ih hids_rest hfind2]
      · have hfind2 :
            (TradeLog.get_open rest).find? (fun v => decide (v.market = market)) = some t := by
          simpa [TradeLog.get_open, List.filter_cons, hopen] using hfind
        have htmem : t ∈ rest :=
          (List.mem_filter.mp (List.mem_of_find?_eq_some hfind2)).1
        have htid : ¬ u.id = t.id := fun he => hu_notin t htmem he.symm
        simp only [TradeLog.close_trade, if_neg htid, close_first_open_match]
        rw [if_neg (fun hc => hopen hc.1), ih hids_rest hfind2]

/-- C10: when all record ids are distinct (as uuids are), a `sell` call
either leaves the trade log unchanged or closes exactly the first Open
record whose market matches, leaving every other record unchanged. -/
theorem C10_sell_mutates_at_most_first_match (e : Engine) (market : String) (ep : ℚ)
    (hids : (e.trade_log.map (fun t => t.id)).Nodup) :
    (e.sell market ep).1.trade_log = e.trade_log
    ∨ (e.sell market ep).1.trade_log = close_first_open_match market ep e.trade_log := by
  cases hc : e.portfolio.close_position market ep with
  | error msg =>
      left
      simp [Engine.sell, hc]
  | ok r =>
      obtain ⟨pnl, pf⟩ := r
      cases hf : (TradeLog.get_open e.trade_log).find? (fun t => decide (t.market = market)) with
      | none =>
          left
          simp [Engine.sell, hc, hf]
      | some t =>
          right
          simp only [Engine.sell, hc, hf, Option.map_some']
          exact close_trade_eq_close_first ep hids hf

/-- Witness for C10 at a concrete input: selling "M" on an engine holding
"M" whose log has the single Open record with id "a". -/
theorem C10_witness :
    (({ portfolio := c5_pf, trade_log := [c3_t0] } : Engine).sell "M" 2).1.trade_log = [c3_t0]
    ∨ (({ portfolio := c5_pf, trade_log := [c3_t0] } : Engine).sell "M" 2).1.trade_log
      = close_first_open_match "M" 2 [c3_t0] :=
  C10_sell_mutates_at_most_first_match _ "M" 2 (by simp)

theorem sum_shares_cons (sp : ℚ × ℚ) (l : List (ℚ × ℚ)) :
    sum_shares (sp :: l) = sp.1 / sp.2 + sum_shares l := by
  simp [sum_shares]

theorem sum_cost_cons (sp : ℚ × ℚ) (l : List (ℚ × ℚ)) :
    sum_cost (sp :: l) = sp.1 + sum_cost l := by
  simp [sum_cost]

theorem open_seq_existing (market coin platform : String) :
    ∀ (l : List (ℚ × ℚ)) (pf : Portfolio) (pos : Position),
      lk market pf.positions = some pos → 0 < pos.size →
      (∀ sp ∈ l, 0 < sp.1 ∧ 0 < sp.2) →
      ∀ pf2, open_seq pf market coin platform l = Except.ok pf2 →
      ∃ pos2, lk market pf2.positions = some pos2
        ∧ pos2.size = pos.size + sum_shares l
        ∧ pos2.size * pos2.avg_price = pos.size * pos.avg_price + sum_cost l
        ∧ 0 < pos2.size := by
  intro l
  induction l with
  | nil =>
      intro pf pos hpos hsz _ pf2 hrun
      simp only [open_seq, Except.ok.injEq] at hrun
      subst hrun
      exact ⟨pos, hpos, by simp [sum_shares], by simp [sum_cost], hsz⟩
  | cons sp rest ih =>
      intro pf pos hpos hsz hall pf2 hrun
      obtain ⟨s, p⟩ := sp
      obtain ⟨hs, hp⟩ := hall (s, p) (List.mem_cons_self _ _)
      simp only [open_seq] at hrun
      by_cases hgt : s > pf.cash_balance
      · obtain ⟨msg, hmsg⟩ := open_position_error_of_gt market coin platform p hgt
        rw [hmsg] at hrun
        exact Except.noConfusion hrun
      · have hop : pf.open_position market coin platform s p = Except.ok
            { pf with
              cash_balance := pf.cash_balance - s
              positions := updKey market
                { pos with
                  avg_price := (pos.size * pos.avg_price + s) / (pos.size + s / p)
                  size := pos.size + s / p } pf.positions } := by
          simp [Portfolio.open_position, if_neg hgt, hpos]
        rw [hop] at hrun
        have hsz1 : 0 < pos.size + s / p := add_pos hsz (div_pos hs hp)
        obtain ⟨pos2, h1, h2, h3, h4⟩ := ih _
          { pos with
            avg_price := (pos.size * pos.avg_price + s) / (pos.size + s / p)
            size := pos.size + s / p }
          (lk_updKey_some market _ pos pf.positions hpos) hsz1
          (fun q hq => hall q (List.mem_cons_of_mem _ hq)) pf2 hrun
        refine ⟨pos2, h1, ?_, ?_, h4⟩
        · rw [h2, sum_shares_cons]
          ring
        · rw [h3, sum_cost_cons]
          have hcancel : (pos.size + s / p) *
              ((pos.size * pos.avg_price + s) / (pos.size + s / p)) =
              pos.size * pos.avg_price + s :=
            mul_div_cancel₀ _ (ne_of_gt hsz1)
          simp only []
          rw [hcancel]
          ring

/-- C6: starting with no position for the market, any sequence of
successful `open_position` calls with positive sizes and prices yields a
position whose size is the sum of `size_usd_i / price_i` and whose
avg_price is the dollar-weighted mean of the prices — total USD spent
divided by total shares bought, the quantity the spec's own scenario
computes as (100+50)/350. -/
theorem C6_open_seq_avg_price (pf : Portfolio) (market coin platform : String)
    (l : List (ℚ × ℚ)) (pf2 : Portfolio)
    (hfresh : lk market pf.positions = none)
    (hne : l ≠ [])
    (hall : ∀ sp ∈ l, 0 < sp.1 ∧ 0 < sp.2)
    (hrun : open_seq pf market coin platform l = Except.ok pf2) :
    ∃ pos, lk market pf2.positions = some pos
      ∧ pos.size = sum_shares l
      ∧ pos.avg_price = sum_cost l / sum_shares l := by
  cases l with
  | nil => exact absurd rfl hne
  | cons sp rest =>
      obtain ⟨s, p⟩ := sp
      obtain ⟨hs, hp⟩ := hall (s, p) (List.mem_cons_self _ _)
      simp only [open_seq] at hrun
      by_cases hgt : s > pf.cash_balance
      · obtain ⟨msg, hmsg⟩ := open_position_error_of_gt market coin platform p hgt
        rw [hmsg] at hrun
        exact Except.noConfusion hrun
      · have hop : pf.open_position market coin platform s p = Except.ok
            { pf with
              cash_balance := pf.cash_balance - s
              positions := pf.positions ++ [(market,
                { market := market, coin := coin, platform := platform,
                  size := s / p, avg_price := p, current_price := p,
                  unrealized_pnl := 0 })] } := by
          simp [Portfolio.open_position, if_neg hgt, hfresh]
        rw [hop] at hrun
        have hsz0 : 0 < s / p := div_pos hs hp
        obtain ⟨pos2, h1, h2, h3, h4⟩ := open_seq_existing market coin platform rest _
          { market := market, coin := coin, platform := platform,
            size := s / p, avg_price := p, current_price := p, unrealized_pnl := 0 }
          (lk_append_single_self market _ pf.positions hfresh) hsz0
          (fun q hq => hall q (List.mem_cons_of_mem _ hq)) pf2 hrun
        have h2s : pos2.size = sum_shares ((s, p) :: rest) := by
          rw [h2, sum_shares_cons]
        have h3s : pos2.size * pos2.avg_price = sum_cost ((s, p) :: rest) := by
          rw [h3, sum_cost_cons]
          have hcancel : s / p * p = s := div_mul_cancel₀ s (ne_of_gt hp)
          simp only []
          rw [hcancel]
        refine ⟨pos2, h1, h2s, ?_⟩
        rw [← h2s, ← h3s, mul_div_cancel_left₀ _ (ne_of_gt h4)]

/-- Witness for C6 at a concrete input: buying $100 at 0.40 and then $50
at 0.50 gives 350 shares at avg_price 150/350 = 3/7. -/
theorem C6_witness :
    ∃ pos, lk "M" c6_pf2.positions = some pos
      ∧ pos.size = sum_shares [(100, 2/5), (50, 1/2)]
      ∧ pos.avg_price = sum_cost [(100, 2/5), (50, 1/2)] / sum_shares [(100, 2/5), (50, 1/2)] :=
  C6_open_seq_avg_price (Portfolio.new 1000) "M" "c" "p" [(100, 2/5), (50, 1/2)] c6_pf2
    (by simp [Portfolio.new, lk]) (by simp) (by norm_num)
    (by norm_num [open_seq, Portfolio.open_position, Portfolio.new, lk, updKey, c6_pf2])

end Polybot
